import Mathlib

/-!
Verification of the csrf-shield-ai ingestion core.

This file gives a shallow embedding of the repository's ingestion and
pre-classification pipeline (`src/input/models.py`, `src/input/har_parser.py`,
`src/input/flow_reconstructor.py`, `src/input/auth_detector.py`) and proves
theorems about it.

Modelling conventions:
* Python `dict[str, str]` values (headers, cookies) are association lists
  `List (String × String)` in insertion order with the keys pairwise distinct
  exactly as the producing code guarantees; lookups and iterations mirror the
  Python iteration order.
* `datetime` values are modelled as `Nat` instants; the only operations the
  code performs on them are comparison (sorting) and "now" (passed explicitly
  as a parameter wherever `datetime.now()` occurs in the source).
* `uuid.uuid4().hex` draws are modelled by an explicit stream
  `uuids : Nat → String`: the n-th draw performed by a call returns
  `uuids n`.  The `[:8]` truncation of the source is applied in the model.
* Case conversion is the per-character ASCII conversion `py_lower` /
  `py_upper`; all configured patterns and header names in the source
  are ASCII.
* String-typed HAR fields are modelled as strings (absent-or-string for the
  optional ones); the JSON-level model in the later sections handles
  arbitrarily-shaped documents where a claim needs it.
-/

namespace CsrfShield

/-! ### Data model, from `src/input/models.py` -/

/-- Severity of a finding (`models.Severity`). -/
inductive Severity where
  | CRITICAL
  | HIGH
  | MEDIUM
  | LOW
  | INFO
deriving DecidableEq, Repr

/-- Overall risk classification (`models.RiskLevel`). -/
inductive RiskLevel where
  | LOW
  | MEDIUM
  | HIGH
  | CRITICAL
deriving DecidableEq, Repr

/-- Authentication mechanism of a session flow (`models.AuthMechanism`). -/
inductive AuthMechanism where
  | COOKIE
  | HEADER_ONLY
  | MIXED
  | NONE
deriving DecidableEq, Repr

/-- One HTTP request/response round trip (`models.HttpExchange`, frozen). -/
structure HttpExchange where
  request_method : String
  request_url : String
  request_headers : List (String × String)
  request_cookies : List (String × String)
  request_body : Option String
  request_content_type : String
  response_status : Int
  response_headers : List (String × String)
  response_body : Option String
  timestamp : Nat
deriving DecidableEq, Repr

/-- A session flow (`models.SessionFlow`, frozen). -/
structure SessionFlow where
  session_id : String
  exchanges : List HttpExchange
  auth_mechanism : AuthMechanism
deriving DecidableEq, Repr

/-- A finding produced by a rule (`models.Finding`, frozen). -/
structure Finding where
  rule_id : String
  rule_name : String
  severity : Severity
  description : String
  evidence : String
  exchange : HttpExchange
deriving DecidableEq, Repr

/-- Terminal analysis output for one flow (`models.AnalysisResult`, frozen).
`ml_probability` is a Python float that the modelled core only ever sets to
`None`; its numeric type is irrelevant here and is taken to be `Nat`. -/
structure AnalysisResult where
  endpoint : String
  http_method : String
  risk_score : Int
  risk_level : RiskLevel
  findings : List Finding
  recommendations : List String
  ml_probability : Option Nat
  feature_vector : Option (List (String × String))
deriving DecidableEq, Repr

/-! ### Shared string helpers -/

/-- Substring containment, the model of Python `needle in hay` on strings:
true iff `needle` occurs contiguously in `hay` (the empty needle always
occurs). -/
def chars_has_pfx : List Char → List Char → Bool
  | _, [] => true
  | [], _ :: _ => false
  | c :: cs, d :: ds => c == d && chars_has_pfx cs ds

/-- Containment scan over the character list of the haystack. -/
def chars_contains : List Char → List Char → Bool
  | [], needle => needle.isEmpty
  | hay@(_ :: t), needle => chars_has_pfx hay needle || chars_contains t needle

/-- Python `needle in hay` for strings. -/
def strContains (hay needle : String) : Bool :=
  chars_contains hay.toList needle.toList

/-- Python `s.lower()` (ASCII case conversion, per character). -/
def py_lower (s : String) : String :=
  String.mk (s.toList.map Char.toLower)

/-- Python `s.upper()` (ASCII case conversion, per character). -/
def py_upper (s : String) : String :=
  String.mk (s.toList.map Char.toUpper)

/-- Python `s[:n]`: the first `n` characters. -/
def py_take (s : String) (n : Nat) : String :=
  String.mk (s.toList.take n)

/-! ### Auth mechanism detector, from `src/input/auth_detector.py` -/

/-- `auth_detector.DEFAULT_AUTH_HEADERS`. -/
def DEFAULT_AUTH_HEADERS : List String :=
  ["Authorization", "X-API-Key", "X-Auth-Token", "Api-Key", "X-Access-Token"]

/-- `auth_detector.DEFAULT_SESSION_COOKIE_PATTERNS`. -/
def DEFAULT_SESSION_COOKIE_PATTERNS : List String := ["session", "sid", "auth"]

/-- `auth_detector.SHORT_CIRCUIT_SCORE`. -/
def SHORT_CIRCUIT_SCORE : Int := 5

/-- Python `custom or dflt`: `None` and the empty list are falsy, so both
select the default. -/
def orDefault (custom : Option (List String)) (dflt : List String) : List String :=
  match custom with
  | Option.none => dflt
  | some l => if l.isEmpty then dflt else l

/-- `auth_detector._has_session_cookie`: some cookie name (lower-cased)
contains some pattern (lower-cased). -/
def has_session_cookie (exchange : HttpExchange) (patterns : List String) : Bool :=
  exchange.request_cookies.any fun kv =>
    patterns.any fun p => strContains (py_lower kv.fst) (py_lower p)

/-- `auth_detector._has_auth_header`: some configured header name equals some
request-header name case-insensitively (the source lower-cases the header
dict's keys and tests membership). -/
def has_auth_header (exchange : HttpExchange) (auth_headers : List String) : Bool :=
  auth_headers.any fun h =>
    exchange.request_headers.any fun kv => py_lower kv.fst == py_lower h

/-- The scanning loop of `detect_auth_mechanism`: accumulates the two flags
over the exchanges, with the source's early exit once both are set. -/
def detect_scan : List HttpExchange → List String → List String → Bool → Bool → Bool × Bool
  | [], _, _, hc, ha => (hc, ha)
  | e :: rest, pats, hdrs, hc, ha =>
    let hc2 := if hc then hc else has_session_cookie e pats
    let ha2 := if ha then ha else has_auth_header e hdrs
    if hc2 && ha2 then (hc2, ha2) else detect_scan rest pats hdrs hc2 ha2

/-- `auth_detector.detect_auth_mechanism`. -/
def detect_auth_mechanism (flow : SessionFlow)
    (cookie_patterns auth_headers : Option (List String)) : AuthMechanism :=
  let patterns := orDefault cookie_patterns DEFAULT_SESSION_COOKIE_PATTERNS
  let headers := orDefault auth_headers DEFAULT_AUTH_HEADERS
  let r := detect_scan flow.exchanges patterns headers false false
  if r.fst && r.snd then AuthMechanism.MIXED
  else if r.fst then AuthMechanism.COOKIE
  else if r.snd then AuthMechanism.HEADER_ONLY
  else AuthMechanism.NONE

/-- `auth_detector.update_flow_auth`. -/
def update_flow_auth (flow : SessionFlow)
    (cookie_patterns auth_headers : Option (List String)) : SessionFlow :=
  { session_id := flow.session_id
    exchanges := flow.exchanges
    auth_mechanism := detect_auth_mechanism flow cookie_patterns auth_headers }

/-- Truncation of long header values in `_build_csrf_011_finding`
(`value[:50] + "..."` when longer than 50 characters). -/
def truncate_value (v : String) : String :=
  if v.length > 50 then py_take v 50 ++ "..." else v

/-- The evidence-collection loops of `_build_csrf_011_finding`: for each
default auth header name, every case-insensitively matching request header
contributes one part. -/
def auth_evidence_parts (exchange : HttpExchange) : List String :=
  DEFAULT_AUTH_HEADERS.flatMap fun header_name =>
    exchange.request_headers.filterMap fun kv =>
      if py_lower kv.fst == py_lower header_name
      then some (kv.fst ++ ": " ++ truncate_value kv.snd)
      else Option.none

/-- The synthetic placeholder exchange `_build_csrf_011_finding` constructs
when the flow has no exchanges (`datetime.now()` is the `now` parameter). -/
def placeholder_exchange (now : Nat) : HttpExchange :=
  { request_method := "GET"
    request_url := "unknown"
    request_headers := []
    request_cookies := []
    request_body := Option.none
    request_content_type := ""
    response_status := 0
    response_headers := []
    response_body := Option.none
    timestamp := now }

/-- `auth_detector._build_csrf_011_finding`. -/
def build_csrf_011_finding (flow : SessionFlow) (exchange : Option HttpExchange)
    (now : Nat) : Finding :=
  let parts := match exchange with
    | some e => auth_evidence_parts e
    | Option.none => []
  let evidence :=
    if parts.isEmpty then "Header-only auth detected"
    else String.intercalate "; " parts
  let ex := match exchange with
    | some e => e
    | Option.none => placeholder_exchange now
  { rule_id := "CSRF-011"
    rule_name := "Non-Cookie Auth (CSRF N/A)"
    severity := Severity.INFO
    description :=
      "Session '" ++ flow.session_id ++ "' uses header-only authentication. " ++
      "CSRF attacks require cookie-based auth to be exploitable. " ++
      "This flow is not vulnerable to CSRF."
    evidence := evidence
    exchange := ex }

/-- `auth_detector.build_short_circuit_result`. -/
def build_short_circuit_result (flow : SessionFlow) (now : Nat) : AnalysisResult :=
  let representative := flow.exchanges.head?
  let csrf_011 := build_csrf_011_finding flow representative now
  let endpoint := match representative with
    | some e => e.request_url
    | Option.none => "unknown"
  let method := match representative with
    | some e => e.request_method
    | Option.none => "GET"
  { endpoint := endpoint
    http_method := method
    risk_score := SHORT_CIRCUIT_SCORE
    risk_level := RiskLevel.LOW
    findings := [csrf_011]
    recommendations := ["No action needed — CSRF is not applicable to header-only auth."]
    ml_probability := Option.none
    feature_vector := Option.none }

/-! ### Flow reconstructor, from `src/input/flow_reconstructor.py` -/

/-- The cookie scan of `_identify_session`: value of the first cookie whose
lower-cased name contains some lower-cased pattern, if any. -/
def session_cookie_value (exchange : HttpExchange) (patterns : List String) : Option String :=
  exchange.request_cookies.findSome? fun kv =>
    if patterns.any fun p => strContains (py_lower kv.fst) (py_lower p)
    then some kv.snd
    else Option.none

/-- `flow_reconstructor._identify_session`, with the `uuid4().hex` draw it
would consume passed in as `uuid_hex` (the source truncates it to 8
characters and prepends a fixed marker). -/
def identify_session (exchange : HttpExchange) (patterns : List String)
    (uuid_hex : String) : String :=
  match session_cookie_value exchange patterns with
  | some v => v
  | Option.none => "no-session-" ++ py_take uuid_hex 8

/-- One `groups[session_id].append(exchange)` step on a `defaultdict(list)`
held as an insertion-ordered association list: an existing key keeps its
position and appends, a new key is added at the end. -/
def group_insert (groups : List (String × List HttpExchange)) (key : String)
    (e : HttpExchange) : List (String × List HttpExchange) :=
  match groups with
  | [] => [(key, [e])]
  | (k, ms) :: rest =>
    if k == key then (k, ms ++ [e]) :: rest else (k, ms) :: group_insert rest key e

/-- The grouping loop of `reconstruct_flows`: identify each exchange's
session key in order and append it to its group.  `drawn` counts the uuid
draws already consumed, so the next fallback key uses `uuids drawn`. -/
def build_groups (patterns : List String) (uuids : Nat → String) :
    List HttpExchange → Nat → List (String × List HttpExchange) →
    List (String × List HttpExchange)
  | [], _, gs => gs
  | e :: rest, drawn, gs =>
    let key := identify_session e patterns (uuids drawn)
    let drawn2 := if (session_cookie_value e patterns).isSome then drawn else drawn + 1
    build_groups patterns uuids rest drawn2 (group_insert gs key e)

/-- Stable insertion of `x` into a key-sorted list: `x` goes after every
element whose key is `≤` its own.  Folding this over a list from the left is
the unique stable sort by `key`, hence the model of Python's stable
`list.sort` / `sorted`. -/
def stable_insert {α : Type} (key : α → Nat) (x : α) : List α → List α
  | [] => [x]
  | y :: ys => if key y ≤ key x then y :: stable_insert key x ys else x :: y :: ys

/-- Python's stable `sorted(l, key=key)` (with a `Nat`-valued key). -/
def stable_sort {α : Type} (key : α → Nat) (l : List α) : List α :=
  l.foldl (fun acc x => stable_insert key x acc) []

/-- Python's stable `sorted(group, key=lambda e: e.timestamp)`. -/
def sort_by_timestamp (l : List HttpExchange) : List HttpExchange :=
  stable_sort (fun e => e.timestamp) l

/-- Timestamp of a flow's first exchange, `f.exchanges[0].timestamp` in the
source (flows built by `reconstruct_flows` are never empty; the `0` default
is unreachable there). -/
def first_timestamp (f : SessionFlow) : Nat :=
  match f.exchanges with
  | [] => 0
  | e :: _ => e.timestamp

/-- `flow_reconstructor.reconstruct_flows`. -/
def reconstruct_flows (exchanges : List HttpExchange)
    (cookie_patterns : Option (List String)) (uuids : Nat → String) : List SessionFlow :=
  if exchanges.isEmpty then []
  else
    let patterns := orDefault cookie_patterns DEFAULT_SESSION_COOKIE_PATTERNS
    let groups := build_groups patterns uuids exchanges 0 []
    let flows := groups.map fun g =>
      ({ session_id := g.fst
         exchanges := sort_by_timestamp g.snd
         auth_mechanism := AuthMechanism.NONE } : SessionFlow)
    stable_sort first_timestamp flows

/-- The session key assigned to each exchange in input order, with the
number of uuid draws threaded exactly as in `build_groups`. -/
def assign_keys (patterns : List String) (uuids : Nat → String) :
    List HttpExchange → Nat → List (String × HttpExchange)
  | [], _ => []
  | e :: rest, drawn =>
    (identify_session e patterns (uuids drawn), e) ::
      assign_keys patterns uuids rest
        (if (session_cookie_value e patterns).isSome then drawn else drawn + 1)

/-- Folding `group_insert` over already-keyed exchanges. -/
def insert_all (gs : List (String × List HttpExchange))
    (t : List (String × HttpExchange)) : List (String × List HttpExchange) :=
  t.foldl (fun acc ke => group_insert acc ke.fst ke.snd) gs

/-- Association lookup in a group list. -/
def lookup_group : List (String × List HttpExchange) → String → Option (List HttpExchange)
  | [], _ => Option.none
  | (k, ms) :: rest, key => if k == key then some ms else lookup_group rest key

/-- The members a keyed-exchange list assigns to one session key, in input
order. -/
def key_members (t : List (String × HttpExchange)) (k : String) : List HttpExchange :=
  (t.filter fun ke => ke.fst == k).map Prod.snd

/-- The fallback session key synthesized from the `i`-th uuid draw. -/
def fallback_key (uuids : Nat → String) (i : Nat) : String :=
  "no-session-" ++ py_take (uuids i) 8

/-- How many exchanges of `l` have no matching session cookie, i.e. how many
uuid draws the grouping loop performs. -/
def fallback_count (patterns : List String) (l : List HttpExchange) : Nat :=
  (l.filter fun e => (session_cookie_value e patterns).isNone).length

/-! ### HAR parser, typed level, from `src/input/har_parser.py`

The body and content-type logic of `_parse_entry` / `_parse_body` /
`_params_fallback` operates on the `postData` object and the already
extracted header dict.  This level models `postData` by a record of its
three HAR-specified keys, each absent-or-string (JSON `null` values of these
keys behave as absent through `dict.get`, which is how the source reads
them); a `postData` object is Python-truthy iff at least one key is
present. -/

/-- One element of `postData.params`. -/
structure PostDataParam where
  name : Option String
  value : Option String
deriving DecidableEq, Repr

/-- The `postData` object of a HAR request. -/
structure PostData where
  mimeType : Option String
  text : Option String
  params : Option (List PostDataParam)
deriving DecidableEq, Repr

/-- Python dict truthiness of a `postData` object over its HAR-specified
keys: non-empty iff some key is present. -/
def post_data_truthy (pd : PostData) : Bool :=
  pd.mimeType.isSome || pd.text.isSome || pd.params.isSome

/-- UTF-8 encoding of one character, as the byte values
`urllib.parse.quote` percent-encodes. -/
def utf8_bytes (c : Char) : List Nat :=
  let n := c.toNat
  if n < 128 then [n]
  else if n < 2048 then [192 + n / 64, 128 + n % 64]
  else if n < 65536 then [224 + n / 4096, 128 + (n / 64) % 64, 128 + n % 64]
  else [240 + n / 262144, 128 + (n / 4096) % 64, 128 + (n / 64) % 64, 128 + n % 64]

/-- Upper-case hexadecimal digit. -/
def hex_digit (n : Nat) : Char :=
  if n < 10 then Char.ofNat (48 + n) else Char.ofNat (55 + n)

/-- `%XX` escape of one byte (upper-case, as `urllib.parse.quote` emits). -/
def percent_byte (b : Nat) : String :=
  String.mk ['%', hex_digit (b / 16), hex_digit (b % 16)]

/-- `urllib.parse.quote_plus` on one character with the default safe set:
space becomes `+`, ASCII alphanumerics and `_.-~` stay, everything else is
percent-encoded bytewise. -/
def quote_plus_char (c : Char) : String :=
  if c == ' ' then "+"
  else if c.isAlphanum || c == '_' || c == '.' || c == '-' || c == '~' then c.toString
  else String.join ((utf8_bytes c).map percent_byte)

/-- `urllib.parse.quote_plus` with the default arguments. -/
def quote_plus (s : String) : String :=
  String.join (s.toList.map quote_plus_char)

/-- `urllib.parse.urlencode` on a pair list (the call in `_params_fallback`). -/
def urlencode (pairs : List (String × String)) : String :=
  String.intercalate "&" (pairs.map fun kv => quote_plus kv.fst ++ "=" ++ quote_plus kv.snd)

/-- `har_parser._params_fallback`: URL-encode the ordered pairs, skipping
items whose `name` is absent; an absent `value` defaults to the empty
string. -/
def params_fallback (params : List PostDataParam) : String :=
  urlencode (params.filterMap fun item =>
    match item.name with
    | Option.none => Option.none
    | some n => some (n, item.value.getD ""))

/-- `har_parser._parse_body`. -/
def parse_body (post_data : Option PostData) : Option String :=
  match post_data with
  | Option.none => Option.none
  | some pd =>
    match pd.text with
    | some t => some t
    | Option.none =>
      match pd.params with
      | some params => if params.isEmpty then Option.none else some (params_fallback params)
      | Option.none => Option.none

/-- Exact-key lookup in a header dict, Python `key in d` / `d[key]`. -/
def lookup_header (headers : List (String × String)) (key : String) : Option String :=
  headers.findSome? fun kv => if kv.fst == key then some kv.snd else Option.none

/-- The content-type resolution of `_parse_entry` (har_parser.py lines
149-155): when `postData` is truthy take its `mimeType` (empty default),
otherwise fall back to the request's `Content-Type` header (exact key),
otherwise the empty string. -/
def resolve_content_type (post_data : Option PostData)
    (request_headers : List (String × String)) : String :=
  match post_data with
  | some pd =>
    if post_data_truthy pd then pd.mimeType.getD ""
    else (lookup_header request_headers "Content-Type").getD ""
  | Option.none => (lookup_header request_headers "Content-Type").getD ""

/-! ### HAR parser, JSON level, from `src/input/har_parser.py`

This level models `parse_har_file` on arbitrarily-shaped JSON documents.
Python exceptions are explicit: the per-entry loop catches `KeyError` and
`ValueError` only, so any other exception raised while parsing an entry
escapes `parse_har_file`.  String-valued fields outside the HAR schema
(e.g. a numeric `url`) are read through `JVal.asString`; no theorem below
depends on such fields. -/

/-- A JSON value, as produced by `json.load`. -/
inductive JVal where
  | null
  | bool (b : Bool)
  | num (n : Int)
  | str (s : String)
  | arr (items : List JVal)
  | obj (fields : List (String × JVal))
deriving Repr

/-- Key lookup in a JSON object (keys from `json.load` are unique). -/
def JVal.lookup : List (String × JVal) → String → Option JVal
  | [], _ => Option.none
  | (k, v) :: rest, key => if k == key then some v else JVal.lookup rest key

/-- Python truthiness of a JSON value. -/
def JVal.truthy : JVal → Bool
  | JVal.null => false
  | JVal.bool b => b
  | JVal.num n => n != 0
  | JVal.str s => !s.isEmpty
  | JVal.arr items => !items.isEmpty
  | JVal.obj fields => !fields.isEmpty

/-- The string carried by a JSON string, empty for other shapes (applied
only where the modelled fragment guarantees a string). -/
def JVal.asString : JVal → String
  | JVal.str s => s
  | _ => ""

/-- The integer carried by a JSON number, `0` for other shapes (applied only
to `response.status`, on which no theorem depends). -/
def JVal.asInt : JVal → Int
  | JVal.num n => n
  | _ => 0

/-- The Python exceptions the entry-parsing code can raise.  The per-entry
loop in `parse_har_file` catches exactly `KeyError` and `ValueError`. -/
inductive PyErr where
  | keyError
  | valueError
  | typeError
  | attributeError
deriving DecidableEq, Repr

/-- Membership in the `except (KeyError, ValueError)` clause of
`parse_har_file`'s entry loop. -/
def PyErr.is_caught : PyErr → Bool
  | PyErr.keyError => true
  | PyErr.valueError => true
  | _ => false

/-- Errors escaping `parse_har_file`: the `FileNotFoundError`, the
`HarParseError`, or an uncaught Python exception from an entry. -/
inductive HarError where
  | fileNotFound (msg : String)
  | harParseError (msg : String)
  | uncaught (e : PyErr)
deriving DecidableEq, Repr

/-- Python subscription `v[key]` with a string key: `KeyError` on a missing
key of an object, `TypeError` on any non-object. -/
def getItem (v : JVal) (key : String) : Except PyErr JVal :=
  match v with
  | JVal.obj fields =>
    match JVal.lookup fields key with
    | some x => Except.ok x
    | Option.none => Except.error PyErr.keyError
  | _ => Except.error PyErr.typeError

/-- Python `v.get(key, dflt)`: only objects have `.get`; a missing key gives
the default. -/
def objGet (v : JVal) (key : String) (dflt : JVal) : Except PyErr JVal :=
  match v with
  | JVal.obj fields => Except.ok ((JVal.lookup fields key).getD dflt)
  | _ => Except.error PyErr.attributeError

/-- Python iteration `for item in v`: a list yields its items, an object its
key strings, a string its characters, anything else raises `TypeError`. -/
def pyIter : JVal → Except PyErr (List JVal)
  | JVal.arr items => Except.ok items
  | JVal.obj fields => Except.ok (fields.map fun kv => JVal.str kv.fst)
  | JVal.str s => Except.ok (s.toList.map fun c => JVal.str c.toString)
  | _ => Except.error PyErr.typeError

/-- The duplicate-joining insertion of `_extract_headers`: an existing name
keeps its position and joins values with `", "`; a new name is appended. -/
def headers_insert (result : List (String × String)) (name value : String) :
    List (String × String) :=
  match result with
  | [] => [(name, value)]
  | (k, v) :: rest =>
    if k == name then (k, v ++ ", " ++ value) :: rest
    else (k, v) :: headers_insert rest name value

/-- The loop of `_extract_headers`: every iterated item must support `.get`
(objects do; anything else raises `AttributeError`). -/
def extract_headers_loop : List JVal → List (String × String) →
    Except PyErr (List (String × String))
  | [], acc => Except.ok acc
  | item :: rest, acc =>
    match item with
    | JVal.obj fields =>
      extract_headers_loop rest (headers_insert acc
        (((JVal.lookup fields "name").getD (JVal.str "")).asString)
        (((JVal.lookup fields "value").getD (JVal.str "")).asString))
    | _ => Except.error PyErr.attributeError

/-- `har_parser._extract_headers` on a JSON value. -/
def extract_headers (headers_list : JVal) : Except PyErr (List (String × String)) := do
  let items ← pyIter headers_list
  extract_headers_loop items []

/-- Dict-comprehension insertion for `_extract_cookies`: a repeated name
keeps its position and overwrites the value. -/
def cookies_insert (result : List (String × String)) (name value : String) :
    List (String × String) :=
  match result with
  | [] => [(name, value)]
  | (k, v) :: rest =>
    if k == name then (k, value) :: rest
    else (k, v) :: cookies_insert rest name value

/-- The comprehension of `_extract_cookies`: items with a falsy `name` are
dropped; non-object items raise `AttributeError`. -/
def extract_cookies_loop : List JVal → List (String × String) →
    Except PyErr (List (String × String))
  | [], acc => Except.ok acc
  | item :: rest, acc =>
    match item with
    | JVal.obj fields =>
      if ((JVal.lookup fields "name").getD JVal.null).truthy then
        extract_cookies_loop rest (cookies_insert acc
          (((JVal.lookup fields "name").getD (JVal.str "")).asString)
          (((JVal.lookup fields "value").getD (JVal.str "")).asString))
      else extract_cookies_loop rest acc
    | _ => Except.error PyErr.attributeError

/-- `har_parser._extract_cookies` on a JSON value. -/
def extract_cookies (cookies_list : JVal) : Except PyErr (List (String × String)) := do
  let items ← pyIter cookies_list
  extract_cookies_loop items []

/-- The list comprehension of `_params_fallback` on JSON items: items whose
`name` reads as `None` through `.get` (missing or JSON `null`) are skipped;
non-object items raise `AttributeError`. -/
def params_fallback_j_loop : List JVal → Except PyErr (List (String × String))
  | [] => Except.ok []
  | item :: rest =>
    match item with
    | JVal.obj fields => do
      let tail ← params_fallback_j_loop rest
      match (JVal.lookup fields "name").getD JVal.null with
      | JVal.null => pure tail
      | nameJ =>
        pure ((nameJ.asString,
          ((JVal.lookup fields "value").getD (JVal.str "")).asString) :: tail)
    | _ => Except.error PyErr.attributeError

/-- `har_parser._parse_body` on a JSON value (the `postData` slot holds
`JVal.null` exactly when Python would hold `None`). -/
def parse_body_j (post_data : JVal) : Except PyErr (Option String) :=
  match post_data with
  | JVal.null => Except.ok Option.none
  | JVal.obj fields =>
    match (JVal.lookup fields "text").getD JVal.null with
    | JVal.null =>
      match (JVal.lookup fields "params").getD JVal.null with
      | JVal.null => Except.ok Option.none
      | paramsJ =>
        if paramsJ.truthy then do
          let items ← pyIter paramsJ
          let pairs ← params_fallback_j_loop items
          pure (some (urlencode pairs))
        else Except.ok Option.none
    | textJ => Except.ok (some textJ.asString)
  | _ => Except.error PyErr.attributeError

/-- The content-type branch of `_parse_entry` on a JSON `postData`. -/
def resolve_content_type_j (post_data : JVal)
    (request_headers : List (String × String)) : Except PyErr String :=
  if post_data.truthy then
    match post_data with
    | JVal.obj fields =>
      Except.ok (((JVal.lookup fields "mimeType").getD (JVal.str "")).asString)
    | _ => Except.error PyErr.attributeError
  else
    Except.ok ((lookup_header request_headers "Content-Type").getD "")

/-- `response_content.get("text")` of `_parse_entry`. -/
def text_of_content (content : JVal) : Except PyErr (Option String) :=
  match content with
  | JVal.obj fields =>
    match (JVal.lookup fields "text").getD JVal.null with
    | JVal.null => Except.ok Option.none
    | v => Except.ok (some v.asString)
  | _ => Except.error PyErr.attributeError

/-- `str.upper`, available on strings only. -/
def pyUpper : JVal → Except PyErr String
  | JVal.str s => Except.ok (py_upper s)
  | _ => Except.error PyErr.attributeError

/-- `har_parser._parse_timestamp` on the string it receives.  The ISO-8601
grammar of `datetime.fromisoformat` is abstracted as the oracle `isoParse`;
the source's retry normalizes a trailing UTC `Z` (Python `str.replace`
replaces every occurrence), and every failure falls back to `now`. -/
def parse_timestamp_str (isoParse : String → Option Nat) (now : Nat)
    (iso_str : String) : Nat :=
  if iso_str.isEmpty then now
  else
    match isoParse iso_str with
    | some t => t
    | Option.none =>
      match isoParse (iso_str.replace "Z" "+00:00") with
      | some t => t
      | Option.none => now

/-- `_parse_timestamp(entry.get("startedDateTime", ""))`: a falsy non-string
argument returns `now` before any parsing; a truthy non-string reaches
`fromisoformat`, which raises `TypeError`. -/
def parse_timestamp_j (isoParse : String → Option Nat) (now : Nat) (v : JVal) :
    Except PyErr Nat :=
  match v with
  | JVal.str s => Except.ok (parse_timestamp_str isoParse now s)
  | v => if v.truthy then Except.error PyErr.typeError else Except.ok now

/-- `har_parser._parse_entry` on a JSON entry, in source statement order. -/
def parse_entry_j (isoParse : String → Option Nat) (now : Nat) (entry : JVal) :
    Except PyErr HttpExchange := do
  let request ← getItem entry "request"
  let response ← getItem entry "response"
  let hdrsJ ← objGet request "headers" (JVal.arr [])
  let request_headers ← extract_headers hdrsJ
  let cksJ ← objGet request "cookies" (JVal.arr [])
  let request_cookies ← extract_cookies cksJ
  let rhdrsJ ← objGet response "headers" (JVal.arr [])
  let response_headers ← extract_headers rhdrsJ
  let post_data ← objGet request "postData" JVal.null
  let request_body ← parse_body_j post_data
  let request_content_type ← resolve_content_type_j post_data request_headers
  let content ← objGet response "content" (JVal.obj [])
  let response_body ← text_of_content content
  let sdt ← objGet entry "startedDateTime" (JVal.str "")
  let timestamp ← parse_timestamp_j isoParse now sdt
  let methodJ ← getItem request "method"
  let request_method ← pyUpper methodJ
  let urlJ ← getItem request "url"
  let statusJ ← getItem response "status"
  pure
    { request_method := request_method
      request_url := urlJ.asString
      request_headers := request_headers
      request_cookies := request_cookies
      request_body := request_body
      request_content_type := request_content_type
      response_status := statusJ.asInt
      response_headers := response_headers
      response_body := response_body
      timestamp := timestamp }

/-- `har_parser._validate_har` with its source error messages (the version
check only logs a warning and is observably inert). -/
def validate_har (data : JVal) : Except HarError Unit :=
  match data with
  | JVal.obj fields =>
    match JVal.lookup fields "log" with
    | Option.none => Except.error (HarError.harParseError "Missing required 'log' key in HAR data")
    | some log =>
      match log with
      | JVal.obj logFields =>
        match JVal.lookup logFields "entries" with
        | Option.none =>
          Except.error (HarError.harParseError "Missing required 'entries' key in HAR log")
        | some entries =>
          match entries with
          | JVal.arr _ => Except.ok ()
          | _ => Except.error (HarError.harParseError "'entries' must be a JSON array")
      | _ => Except.error (HarError.harParseError "'log' must be a JSON object")
  | _ => Except.error (HarError.harParseError "HAR data must be a JSON object")

/-- The entry loop of `parse_har_file`: a caught exception skips the entry,
any other exception escapes. -/
def parse_entries_loop (isoParse : String → Option Nat) (now : Nat) :
    List JVal → Except HarError (List HttpExchange)
  | [] => Except.ok []
  | entry :: rest =>
    match parse_entry_j isoParse now entry with
    | Except.ok ex =>
      match parse_entries_loop isoParse now rest with
      | Except.ok tail => Except.ok (ex :: tail)
      | Except.error e => Except.error e
    | Except.error e =>
      if e.is_caught then parse_entries_loop isoParse now rest
      else Except.error (HarError.uncaught e)

/-- The document-shape predicate `_validate_har` enforces: an object whose
`log` is an object whose `entries` is an array. -/
def har_shape_ok (data : JVal) : Bool :=
  match data with
  | JVal.obj fields =>
    match JVal.lookup fields "log" with
    | some (JVal.obj logFields) =>
      match JVal.lookup logFields "entries" with
      | some (JVal.arr _) => true
      | _ => false
    | _ => false
  | _ => false

/-- The `log.entries` array of a shape-valid document. -/
def entries_of (data : JVal) : Option (List JVal) :=
  match data with
  | JVal.obj fields =>
    match JVal.lookup fields "log" with
    | some (JVal.obj logFields) =>
      match JVal.lookup logFields "entries" with
      | some (JVal.arr items) => some items
      | _ => Option.none
    | _ => Option.none
  | _ => Option.none

/-- `har_parser.parse_har_file`.  The file system is the oracle `fs`:
`fs path = none` models a missing file, `fs path = some none` an existing
file whose contents are not valid JSON, and `fs path = some (some v)` a file
whose JSON parses to `v`. -/
def parse_har_file (path : String) (fs : String → Option (Option JVal))
    (isoParse : String → Option Nat) (now : Nat) : Except HarError (List HttpExchange) :=
  match fs path with
  | Option.none => Except.error (HarError.fileNotFound ("HAR file not found: " ++ path))
  | some Option.none => Except.error (HarError.harParseError "Invalid JSON in HAR file")
  | some (some data) =>
    match validate_har data with
    | Except.error e => Except.error e
    | Except.ok _ =>
      match entries_of data with
      | some items => parse_entries_loop isoParse now items
      | Option.none => Except.error (HarError.uncaught PyErr.keyError)

/-! ### Concrete instances used by witnesses and counterexamples -/

/-- The spec's concrete scenario 5: a single `theme=dark` parameter pair. -/
def theme_param : PostDataParam := { name := some "theme", value := some "dark" }

/-- A `postData` with `text` absent and only the `theme=dark` pair. -/
def theme_post_data : PostData :=
  { mimeType := Option.none, text := Option.none, params := some [theme_param] }

/-- An exchange whose `session` cookie value is itself shaped like a
fallback key. -/
def ex_cookie_clash : HttpExchange :=
  { request_method := "GET"
    request_url := "https://app.example/a"
    request_headers := []
    request_cookies := [("session", "no-session-aaaaaaaa")]
    request_body := Option.none
    request_content_type := ""
    response_status := 200
    response_headers := []
    response_body := Option.none
    timestamp := 1 }

/-- An exchange with no cookies at all. -/
def ex_no_cookie_1 : HttpExchange :=
  { request_method := "GET"
    request_url := "https://app.example/b"
    request_headers := []
    request_cookies := []
    request_body := Option.none
    request_content_type := ""
    response_status := 200
    response_headers := []
    response_body := Option.none
    timestamp := 2 }

/-- A second cookie-less exchange, later in time. -/
def ex_no_cookie_2 : HttpExchange :=
  { request_method := "POST"
    request_url := "https://app.example/c"
    request_headers := []
    request_cookies := [("theme", "dark")]
    request_body := some "x=1"
    request_content_type := "application/x-www-form-urlencoded"
    response_status := 200
    response_headers := []
    response_body := Option.none
    timestamp := 3 }

/-- Two exchanges sharing the `session_id=s1` cookie, out of time order
(the spec's concrete scenario 2). -/
def ex_s1_late : HttpExchange :=
  { request_method := "POST"
    request_url := "https://app.example/d"
    request_headers := []
    request_cookies := [("session_id", "s1")]
    request_body := Option.none
    request_content_type := ""
    response_status := 200
    response_headers := []
    response_body := Option.none
    timestamp := 9 }

/-- The earlier of the two `s1` exchanges. -/
def ex_s1_early : HttpExchange :=
  { request_method := "GET"
    request_url := "https://app.example/e"
    request_headers := []
    request_cookies := [("session_id", "s1")]
    request_body := Option.none
    request_content_type := ""
    response_status := 200
    response_headers := []
    response_body := Option.none
    timestamp := 4 }

/-- A uuid stream whose draws all truncate to the same 8 characters. -/
def uuids_const (_ : Nat) : String := "aaaaaaaazz"

/-- A uuid stream with pairwise distinct 8-character truncations. -/
def uuids_fresh (i : Nat) : String :=
  "u" ++ String.mk (List.replicate (i % 7) 'x')

/-- The flow holding the two `s1` exchanges in timestamp order. -/
def flow_s1 : SessionFlow :=
  { session_id := "s1", exchanges := [ex_s1_early, ex_s1_late],
    auth_mechanism := AuthMechanism.NONE }

/-- The singleton flow of the first cookie-less exchange under the fresh
uuid stream. -/
def flow_nc1 : SessionFlow :=
  { session_id := "no-session-u", exchanges := [ex_no_cookie_1],
    auth_mechanism := AuthMechanism.NONE }

/-- A shape-valid document with one (malformed but object-shaped) entry. -/
def doc_one_entry : JVal :=
  JVal.obj [("log", JVal.obj [("version", JVal.str "1.2"),
    ("entries", JVal.arr [JVal.obj []])])]

/-! ### Theorems: auth detector -/

/-- The scanning loop accumulates exactly the two any-exchange conditions;
the early exit is unobservable. -/
theorem detect_scan_eq (l : List HttpExchange) (pats hdrs : List String) (hc ha : Bool) :
    detect_scan l pats hdrs hc ha =
      (hc || l.any fun e => has_session_cookie e pats,
       ha || l.any fun e => has_auth_header e hdrs) := by
  induction l generalizing hc ha with
  | nil => simp [detect_scan]
  | cons e rest ih =>
    cases hc <;> cases ha <;>
      cases hsc : has_session_cookie e pats <;>
      cases hah : has_auth_header e hdrs <;>
      simp [detect_scan, hsc, hah, ih]

/-- C1: for every flow and every (possibly default) cookie-pattern and
auth-header list, `detect_auth_mechanism` returns `MIXED` exactly when some
exchange of the flow has a cookie whose lower-cased name contains some
lower-cased pattern and some exchange has a request header whose name
case-insensitively equals some configured header name, `COOKIE` exactly when
only the cookie condition holds, `HEADER_ONLY` exactly when only the header
condition holds, and `NONE` exactly when neither holds — both conditions
ranging over all exchanges of the flow. -/
theorem detect_auth_mechanism_truth_table (flow : SessionFlow)
    (cookie_patterns auth_headers : Option (List String)) :
    (detect_auth_mechanism flow cookie_patterns auth_headers = AuthMechanism.MIXED ↔
      ((∃ e ∈ flow.exchanges, ∃ kv ∈ e.request_cookies,
          ∃ p ∈ orDefault cookie_patterns DEFAULT_SESSION_COOKIE_PATTERNS,
            strContains (py_lower kv.fst) (py_lower p) = true) ∧
       (∃ e ∈ flow.exchanges, ∃ kv ∈ e.request_headers,
          ∃ h ∈ orDefault auth_headers DEFAULT_AUTH_HEADERS,
            py_lower kv.fst = py_lower h))) ∧
    (detect_auth_mechanism flow cookie_patterns auth_headers = AuthMechanism.COOKIE ↔
      ((∃ e ∈ flow.exchanges, ∃ kv ∈ e.request_cookies,
          ∃ p ∈ orDefault cookie_patterns DEFAULT_SESSION_COOKIE_PATTERNS,
            strContains (py_lower kv.fst) (py_lower p) = true) ∧
       ¬(∃ e ∈ flow.exchanges, ∃ kv ∈ e.request_headers,
          ∃ h ∈ orDefault auth_headers DEFAULT_AUTH_HEADERS,
            py_lower kv.fst = py_lower h))) ∧
    (detect_auth_mechanism flow cookie_patterns auth_headers = AuthMechanism.HEADER_ONLY ↔
      (¬(∃ e ∈ flow.exchanges, ∃ kv ∈ e.request_cookies,
          ∃ p ∈ orDefault cookie_patterns DEFAULT_SESSION_COOKIE_PATTERNS,
            strContains (py_lower kv.fst) (py_lower p) = true) ∧
       (∃ e ∈ flow.exchanges, ∃ kv ∈ e.request_headers,
          ∃ h ∈ orDefault auth_headers DEFAULT_AUTH_HEADERS,
            py_lower kv.fst = py_lower h))) ∧
    (detect_auth_mechanism flow cookie_patterns auth_headers = AuthMechanism.NONE ↔
      (¬(∃ e ∈ flow.exchanges, ∃ kv ∈ e.request_cookies,
          ∃ p ∈ orDefault cookie_patterns DEFAULT_SESSION_COOKIE_PATTERNS,
            strContains (py_lower kv.fst) (py_lower p) = true) ∧
       ¬(∃ e ∈ flow.exchanges, ∃ kv ∈ e.request_headers,
          ∃ h ∈ orDefault auth_headers DEFAULT_AUTH_HEADERS,
            py_lower kv.fst = py_lower h))) := by
  have hcook : (flow.exchanges.any fun e =>
      has_session_cookie e (orDefault cookie_patterns DEFAULT_SESSION_COOKIE_PATTERNS)) = true ↔
      ∃ e ∈ flow.exchanges, ∃ kv ∈ e.request_cookies,
        ∃ p ∈ orDefault cookie_patterns DEFAULT_SESSION_COOKIE_PATTERNS,
          strContains (py_lower kv.fst) (py_lower p) = true := by
    simp [has_session_cookie, List.any_eq_true]
  have hhdr : (flow.exchanges.any fun e =>
      has_auth_header e (orDefault auth_headers DEFAULT_AUTH_HEADERS)) = true ↔
      ∃ e ∈ flow.exchanges, ∃ kv ∈ e.request_headers,
        ∃ h ∈ orDefault auth_headers DEFAULT_AUTH_HEADERS,
          py_lower kv.fst = py_lower h := by
    constructor
    · intro hx
      simp only [has_auth_header, List.any_eq_true] at hx
      obtain ⟨e, he, h, hh, kv, hkv, heq⟩ := hx
      exact ⟨e, he, kv, hkv, h, hh, by simpa using heq⟩
    · intro hx
      obtain ⟨e, he, kv, hkv, h, hh, heq⟩ := hx
      simp only [has_auth_header, List.any_eq_true]
      exact ⟨e, he, h, hh, kv, hkv, by simpa using heq⟩
  rw [← hcook, ← hhdr]
  simp only [detect_auth_mechanism, detect_scan_eq]
  cases hb1 : flow.exchanges.any fun e =>
      has_session_cookie e (orDefault cookie_patterns DEFAULT_SESSION_COOKIE_PATTERNS) <;>
    cases hb2 : flow.exchanges.any fun e =>
      has_auth_header e (orDefault auth_headers DEFAULT_AUTH_HEADERS) <;>
    simp

/-- C2: for every flow (and instant used for the synthetic placeholder),
the short-circuit result has risk score 5, risk level LOW, exactly one
finding — with rule id CSRF-011 and severity INFO — and absent
`ml_probability` and `feature_vector`. -/
theorem build_short_circuit_result_spec (flow : SessionFlow) (now : Nat) :
    (build_short_circuit_result flow now).risk_score = 5 ∧
    (build_short_circuit_result flow now).risk_level = RiskLevel.LOW ∧
    (∃ f, (build_short_circuit_result flow now).findings = [f] ∧
      f.rule_id = "CSRF-011" ∧ f.severity = Severity.INFO) ∧
    (build_short_circuit_result flow now).ml_probability = Option.none ∧
    (build_short_circuit_result flow now).feature_vector = Option.none :=
  ⟨rfl, rfl, ⟨build_csrf_011_finding flow flow.exchanges.head? now, rfl, rfl, rfl⟩, rfl, rfl⟩

/-- C9: `update_flow_auth` returns a flow with the same session key and
exchange sequence and the detected mechanism.  The input is a value of an
immutable record type and is never mutated — the function is pure. -/
theorem update_flow_auth_spec (flow : SessionFlow)
    (cookie_patterns auth_headers : Option (List String)) :
    (update_flow_auth flow cookie_patterns auth_headers).session_id = flow.session_id ∧
    (update_flow_auth flow cookie_patterns auth_headers).exchanges = flow.exchanges ∧
    (update_flow_auth flow cookie_patterns auth_headers).auth_mechanism =
      detect_auth_mechanism flow cookie_patterns auth_headers :=
  ⟨rfl, rfl, rfl⟩

/-- C10: passing an empty list for the cookie-pattern override (or the
auth-header override) behaves identically to passing no list: Python `or`
treats the empty list as falsy, so the built-in defaults apply. -/
theorem empty_override_uses_defaults (flow : SessionFlow)
    (exchanges : List HttpExchange) (cookie_patterns auth_headers : Option (List String))
    (uuids : Nat → String) :
    detect_auth_mechanism flow (some []) auth_headers =
      detect_auth_mechanism flow Option.none auth_headers ∧
    detect_auth_mechanism flow cookie_patterns (some []) =
      detect_auth_mechanism flow cookie_patterns Option.none ∧
    reconstruct_flows exchanges (some []) uuids =
      reconstruct_flows exchanges Option.none uuids :=
  ⟨rfl, rfl, rfl⟩

/-! ### Theorems: the stable sort -/

/-- Membership in a stable insertion. -/
theorem mem_stable_insert {α : Type} (key : α → Nat) (x : α) (l : List α) (a : α) :
    a ∈ stable_insert key x l ↔ a = x ∨ a ∈ l := by
  induction l with
  | nil => simp [stable_insert]
  | cons y ys ih =>
    by_cases h : key y ≤ key x <;> simp [stable_insert, h, ih]
    tauto

/-- Stable insertion preserves key-sortedness. -/
theorem stable_insert_sorted {α : Type} (key : α → Nat) (x : α) (l : List α)
    (h : l.Pairwise fun a b => key a ≤ key b) :
    (stable_insert key x l).Pairwise fun a b => key a ≤ key b := by
  induction l with
  | nil => simp [stable_insert]
  | cons y ys ih =>
    rcases List.pairwise_cons.mp h with ⟨hy, hys⟩
    by_cases hle : key y ≤ key x
    · simp only [stable_insert, if_pos hle]
      refine List.pairwise_cons.mpr ⟨?_, ih hys⟩
      intro a ha
      rcases (mem_stable_insert key x ys a).mp ha with rfl | ha2
      · exact hle
      · exact hy a ha2
    · simp only [stable_insert, if_neg hle]
      refine List.pairwise_cons.mpr ⟨?_, h⟩
      intro a ha
      have hxy : key x ≤ key y := by omega
      rcases List.mem_cons.mp ha with rfl | ha2
      · exact hxy
      · exact le_trans hxy (hy a ha2)
/-- Inserting an element of the key class `t` into a sorted list appends it
to that class's subsequence. -/
theorem stable_insert_filter_hit {α : Type} (key : α → Nat) (t : Nat) (x : α) (l : List α)
    (hx : key x = t) (h : l.Pairwise fun a b => key a ≤ key b) :
    (stable_insert key x l).filter (fun a => key a == t) =
      l.filter (fun a => key a == t) ++ [x] := by
  induction l with
  | nil => simp [stable_insert, hx]
  | cons y ys ih =>
    rcases List.pairwise_cons.mp h with ⟨hy, hys⟩
    by_cases hle : key y ≤ key x
    · simp only [stable_insert, if_pos hle, List.filter_cons]
      by_cases hpy : key y = t <;> simp [hpy, ih hys]
    · simp only [stable_insert, if_neg hle]
      have hnil : (y :: ys).filter (fun a => key a == t) = [] := by
        rw [List.filter_eq_nil_iff]
        intro a ha
        rcases List.mem_cons.mp ha with rfl | ha2
        · simp; omega
        · have := hy a ha2; simp; omega
      simp [List.filter_cons, hx, hnil]

/-- Inserting an element outside the key class `t` leaves that class's
subsequence unchanged. -/
theorem stable_insert_filter_miss {α : Type} (key : α → Nat) (t : Nat) (x : α) (l : List α)
    (hx : key x ≠ t) :
    (stable_insert key x l).filter (fun a => key a == t) =
      l.filter fun a => key a == t := by
  induction l with
  | nil => simp [stable_insert, hx]
  | cons y ys ih =>
    by_cases hle : key y ≤ key x
    · simp only [stable_insert, if_pos hle, List.filter_cons]
      by_cases hpy : key y = t <;> simp [hpy, ih]
    · simp only [stable_insert, if_neg hle]
      simp [List.filter_cons, hx]

/-- The folded insertion sort is sorted, preserves each key class's
subsequence in order (stability), and holds exactly the input's elements. -/
theorem stable_sort_go {α : Type} (key : α → Nat) :
    ∀ (l acc : List α), acc.Pairwise (fun a b => key a ≤ key b) →
      ((l.foldl (fun acc x => stable_insert key x acc) acc).Pairwise fun a b => key a ≤ key b) ∧
      (∀ t, (l.foldl (fun acc x => stable_insert key x acc) acc).filter (fun a => key a == t) =
        acc.filter (fun a => key a == t) ++ l.filter fun a => key a == t) ∧
      (∀ a, a ∈ l.foldl (fun acc x => stable_insert key x acc) acc ↔ a ∈ acc ∨ a ∈ l) := by
  intro l
  induction l with
  | nil => intro acc h; simp [h]
  | cons x xs ih =>
    intro acc h
    have hins := stable_insert_sorted key x acc h
    obtain ⟨ih1, ih2, ih3⟩ := ih (stable_insert key x acc) hins
    refine ⟨ih1, ?_, ?_⟩
    · intro t
      simp only [List.foldl_cons]
      rw [ih2 t]
      by_cases hx : key x = t
      · rw [stable_insert_filter_hit key t x acc hx h]
        simp [List.filter_cons, hx, List.append_assoc]
      · rw [stable_insert_filter_miss key t x acc hx]
        simp [List.filter_cons, hx]
    · intro a
      simp only [List.foldl_cons]
      rw [ih3 a, mem_stable_insert]
      simp only [List.mem_cons]
      tauto

/-- `stable_sort` sorts by the key. -/
theorem stable_sort_sorted {α : Type} (key : α → Nat) (l : List α) :
    (stable_sort key l).Pairwise fun a b => key a ≤ key b :=
  (stable_sort_go key l [] (by simp)).1

/-- Stability: each key class's subsequence is exactly the input's. -/
theorem stable_sort_filter {α : Type} (key : α → Nat) (l : List α) (t : Nat) :
    (stable_sort key l).filter (fun a => key a == t) = l.filter fun a => key a == t := by
  have h := (stable_sort_go key l [] (by simp)).2.1 t
  simpa [stable_sort] using h

/-- `stable_sort` holds exactly the input's elements. -/
theorem mem_stable_sort {α : Type} (key : α → Nat) (l : List α) (a : α) :
    a ∈ stable_sort key l ↔ a ∈ l := by
  have h := (stable_sort_go key l [] (by simp)).2.2 a
  simpa [stable_sort] using h

/-- Sorting a non-empty list gives a non-empty list. -/
theorem stable_sort_ne_nil {α : Type} (key : α → Nat) (l : List α) (h : l ≠ []) :
    stable_sort key l ≠ [] := by
  cases l with
  | nil => exact absurd rfl h
  | cons x xs =>
    intro hnil
    have hx : x ∈ stable_sort key (x :: xs) :=
      (mem_stable_sort key (x :: xs) x).mpr (List.mem_cons_self x xs)
    rw [hnil] at hx
    exact absurd hx (List.not_mem_nil x)

/-! ### Theorems: HAR parser, body and content type -/

/-- C4, counterexample: a `postData` carrying an empty `params` array and no
`text` yields an absent body, not the (empty) URL-encoding of zero pairs the
claim requires for every present `params`. -/
theorem parse_body_empty_params_counterexample :
    parse_body (some { mimeType := Option.none, text := Option.none, params := some [] }) ≠
      some (params_fallback []) := by
  decide

/-- C4, amended: the body is absent when `postData` is absent; it is
`postData.text` verbatim whenever that field is present; when `text` is
absent and `params` is present and non-empty it is the URL-encoding of the
ordered pairs (absent names skipped, by `params_fallback`); and when `text`
is absent and `params` is absent or empty the body is absent. -/
theorem parse_body_resolution (post_data : Option PostData) :
    (post_data = Option.none → parse_body post_data = Option.none) ∧
    (∀ pd t, post_data = some pd → pd.text = some t → parse_body post_data = some t) ∧
    (∀ pd ps, post_data = some pd → pd.text = Option.none → pd.params = some ps →
      ps ≠ [] → parse_body post_data = some (params_fallback ps)) ∧
    (∀ pd, post_data = some pd → pd.text = Option.none →
      (pd.params = Option.none ∨ pd.params = some []) →
      parse_body post_data = Option.none) := by
  refine ⟨fun h => by subst h; rfl, ?_, ?_, ?_⟩
  · intro pd t hpd ht
    subst hpd
    simp [parse_body, ht]
  · intro pd ps hpd ht hps hne
    subst hpd
    simp [parse_body, ht, hps, List.isEmpty_iff, hne]
  · intro pd hpd ht hps
    subst hpd
    rcases hps with h | h <;> simp [parse_body, ht, h]

/-- C4, witness: the spec's concrete scenario, a single `theme=dark`
parameter pair with `text` absent. -/
theorem parse_body_resolution_witness :
    parse_body (some theme_post_data) = some "theme=dark" := by
  have h := (parse_body_resolution (some theme_post_data)).2.2.1
    theme_post_data [theme_param] rfl rfl rfl (by decide)
  rw [h]
  decide

/-- C5, counterexample: a present, non-empty `postData` without a `mimeType`
does not fall back to the request's `Content-Type` header — the source's
`elif` is only reached when `postData` is absent or empty, so the result is
the empty string although the header is present. -/
theorem content_type_header_fallback_counterexample :
    resolve_content_type
        (some { mimeType := Option.none, text := some "x", params := Option.none })
        [("Content-Type", "text/html")] = "" ∧
    lookup_header [("Content-Type", "text/html")] "Content-Type" = some "text/html" ∧
    ("" : String) ≠ "text/html" := by
  refine ⟨rfl, rfl, by decide⟩

/-- C5, amended: when `postData` is present and non-empty the content type
is its `mimeType` (empty default) with no header fallback; the request's
`Content-Type` header (exact key) is used only when `postData` is absent or
an empty object; otherwise the result is the empty string. -/
theorem content_type_resolution (post_data : Option PostData)
    (request_headers : List (String × String)) :
    (∀ pd, post_data = some pd → post_data_truthy pd = true →
      resolve_content_type post_data request_headers = pd.mimeType.getD "") ∧
    ((post_data = Option.none ∨ ∃ pd, post_data = some pd ∧ post_data_truthy pd = false) →
      ∀ v, lookup_header request_headers "Content-Type" = some v →
      resolve_content_type post_data request_headers = v) ∧
    ((post_data = Option.none ∨ ∃ pd, post_data = some pd ∧ post_data_truthy pd = false) →
      lookup_header request_headers "Content-Type" = Option.none →
      resolve_content_type post_data request_headers = "") := by
  refine ⟨?_, ?_, ?_⟩
  · intro pd hpd htr
    subst hpd
    simp [resolve_content_type, htr]
  · intro hfalsy v hv
    rcases hfalsy with h | ⟨pd, hpd, htr⟩
    · subst h; simp [resolve_content_type, hv]
    · subst hpd; simp [resolve_content_type, htr, hv]
  · intro hfalsy hv
    rcases hfalsy with h | ⟨pd, hpd, htr⟩
    · subst h; simp [resolve_content_type, hv]
    · subst hpd; simp [resolve_content_type, htr, hv]

/-- C5, witness: a `postData` carrying a mime type wins, and with `postData`
absent the header fallback applies. -/
theorem content_type_resolution_witness :
    resolve_content_type
        (some { mimeType := some "application/json", text := Option.none, params := Option.none })
        [("Content-Type", "text/html")] = "application/json" ∧
    resolve_content_type Option.none [("Content-Type", "text/html")] = "text/html" :=
  ⟨(content_type_resolution
      (some { mimeType := some "application/json", text := Option.none, params := Option.none })
      [("Content-Type", "text/html")]).1
      { mimeType := some "application/json", text := Option.none, params := Option.none }
      rfl rfl,
   (content_type_resolution Option.none [("Content-Type", "text/html")]).2.1
      (Or.inl rfl) "text/html" rfl⟩

/-! ### Theorems: HAR parser, document level -/

/-- Validation succeeds exactly on documents of the required shape. -/
theorem validate_har_ok_iff (v : JVal) :
    validate_har v = Except.ok () ↔ har_shape_ok v = true := by
  unfold validate_har har_shape_ok
  cases v <;> simp
  case obj fields =>
    cases JVal.lookup fields "log" <;> simp
    case some log =>
      cases log <;> simp
      case obj lf =>
        cases JVal.lookup lf "entries" <;> simp
        case some en => cases en <;> simp

/-- Validation either succeeds or fails with a `HarParseError`. -/
theorem validate_har_classify (v : JVal) :
    validate_har v = Except.ok () ∨
      ∃ msg, validate_har v = Except.error (HarError.harParseError msg) := by
  unfold validate_har
  cases v <;> simp
  case obj fields =>
    cases JVal.lookup fields "log" <;> simp
    case some log =>
      cases log <;> simp
      case obj lf =>
        cases JVal.lookup lf "entries" <;> simp
        case some en => cases en <;> simp

/-- The shape predicate holds exactly when the `entries` array is
extractable. -/
theorem har_shape_ok_entries (v : JVal) :
    har_shape_ok v = true ↔ ∃ items, entries_of v = some items := by
  unfold har_shape_ok entries_of
  cases v <;> try simp
  case obj fields =>
    cases JVal.lookup fields "log" <;> try simp
    case some log =>
      cases log <;> try simp
      case obj lf =>
        cases JVal.lookup lf "entries" <;> try simp
        case some en => cases en <;> simp

/-- A shape-invalid document makes validation fail with a `HarParseError`. -/
theorem validate_har_err (v : JVal) (h : har_shape_ok v = false) :
    ∃ msg, validate_har v = Except.error (HarError.harParseError msg) := by
  rcases validate_har_classify v with hok | herr
  · rw [validate_har_ok_iff, h] at hok
    exact absurd hok (by simp)
  · exact herr

/-- The entry loop can only fail with an uncaught Python exception. -/
theorem parse_entries_loop_error (isoParse : String → Option Nat) (now : Nat) :
    ∀ items e, parse_entries_loop isoParse now items = Except.error e →
      ∃ pe, e = HarError.uncaught pe := by
  intro items
  induction items with
  | nil => intro e h; simp [parse_entries_loop] at h
  | cons entry rest ih =>
    intro e h
    rw [parse_entries_loop] at h
    cases hp : parse_entry_j isoParse now entry with
    | ok ex =>
      rw [hp] at h
      cases ht : parse_entries_loop isoParse now rest with
      | ok tail => rw [ht] at h; exact absurd h (by simp)
      | error e2 =>
        rw [ht] at h
        injection h with h2
        subst h2
        exact ih e2 ht
    | error pe =>
      rw [hp] at h
      by_cases hc : pe.is_caught = true
      · simp only [hc, if_true] at h
        exact ih e h
      · simp only [Bool.not_eq_true] at hc
        simp only [hc, Bool.false_eq_true, if_false] at h
        injection h with h2
        exact ⟨pe, h2.symm⟩

/-- Full case analysis of `parse_har_file` over the file-system oracle. -/
theorem parse_har_file_cases (path : String) (fs : String → Option (Option JVal))
    (isoParse : String → Option Nat) (now : Nat) :
    (fs path = Option.none ∧
      parse_har_file path fs isoParse now =
        Except.error (HarError.fileNotFound ("HAR file not found: " ++ path))) ∨
    (fs path = some Option.none ∧
      parse_har_file path fs isoParse now =
        Except.error (HarError.harParseError "Invalid JSON in HAR file")) ∨
    (∃ v, fs path = some (some v) ∧ har_shape_ok v = false ∧
      ∃ msg, parse_har_file path fs isoParse now =
        Except.error (HarError.harParseError msg)) ∨
    (∃ v items, fs path = some (some v) ∧ har_shape_ok v = true ∧
      entries_of v = some items ∧
      parse_har_file path fs isoParse now = parse_entries_loop isoParse now items) := by
  cases hfs : fs path with
  | none => exact Or.inl ⟨rfl, by simp [parse_har_file, hfs]⟩
  | some o =>
    cases o with
    | none => exact Or.inr (Or.inl ⟨rfl, by simp [parse_har_file, hfs]⟩)
    | some v =>
      by_cases hs : har_shape_ok v = true
      · refine Or.inr (Or.inr (Or.inr ?_))
        obtain ⟨items, hitems⟩ := (har_shape_ok_entries v).mp hs
        refine ⟨v, items, rfl, hs, hitems, ?_⟩
        have hok : validate_har v = Except.ok () := (validate_har_ok_iff v).mpr hs
        simp [parse_har_file, hfs, hok, hitems]
      · refine Or.inr (Or.inr (Or.inl ?_))
        have hs' : har_shape_ok v = false := by simpa using hs
        obtain ⟨msg, hmsg⟩ := validate_har_err v hs'
        exact ⟨v, rfl, hs', msg, by simp [parse_har_file, hfs, hmsg]⟩

/-- C8: `parse_har_file` fails with the not-found kind exactly when the path
does not resolve to a file; it fails with the malformed-document kind
exactly when the file exists but is not valid JSON or the document lacks the
object/`log`-object/`entries`-array shape; the two kinds are distinct
values; and for every shape-valid document the result is the entry loop
over `log.entries` — document-level validation is decided before any entry
is processed. -/
theorem parse_har_file_error_taxonomy (path : String) (fs : String → Option (Option JVal))
    (isoParse : String → Option Nat) (now : Nat) :
    ((∃ msg, parse_har_file path fs isoParse now =
        Except.error (HarError.fileNotFound msg)) ↔ fs path = Option.none) ∧
    ((∃ msg, parse_har_file path fs isoParse now =
        Except.error (HarError.harParseError msg)) ↔
      (fs path = some Option.none ∨
        ∃ v, fs path = some (some v) ∧ har_shape_ok v = false)) ∧
    (∀ m m', HarError.fileNotFound m ≠ HarError.harParseError m') ∧
    (∀ v items, fs path = some (some v) → entries_of v = some items →
      parse_har_file path fs isoParse now = parse_entries_loop isoParse now items) := by
  have hcases := parse_har_file_cases path fs isoParse now
  refine ⟨⟨?_, ?_⟩, ⟨?_, ?_⟩, by intro m m' h; exact absurd h (by simp), ?_⟩
  · rintro ⟨msg, hmsg⟩
    rcases hcases with ⟨h1, _⟩ | ⟨h1, h2⟩ | ⟨v, h1, _, m2, h2⟩ | ⟨v, items, h1, _, _, h2⟩
    · exact h1
    · rw [h2] at hmsg; exact absurd hmsg (by simp)
    · rw [h2] at hmsg; exact absurd hmsg (by simp)
    · rw [h2] at hmsg
      obtain ⟨pe, hpe⟩ := parse_entries_loop_error isoParse now items _ hmsg
      exact absurd hpe (by simp)
  · intro hnone
    rcases hcases with ⟨_, h2⟩ | ⟨h1, _⟩ | ⟨v, h1, _⟩ | ⟨v, items, h1, _⟩
    · exact ⟨_, h2⟩
    · rw [hnone] at h1; exact absurd h1 (by simp)
    · rw [hnone] at h1; exact absurd h1 (by simp)
    · rw [hnone] at h1; exact absurd h1 (by simp)
  · rintro ⟨msg, hmsg⟩
    rcases hcases with ⟨h1, h2⟩ | ⟨h1, h2⟩ | ⟨v, h1, h3, m2, h2⟩ | ⟨v, items, h1, _, _, h2⟩
    · rw [h2] at hmsg; exact absurd hmsg (by simp)
    · exact Or.inl h1
    · exact Or.inr ⟨v, h1, h3⟩
    · rw [h2] at hmsg
      obtain ⟨pe, hpe⟩ := parse_entries_loop_error isoParse now items _ hmsg
      exact absurd hpe (by simp)
  · intro hmal
    rcases hcases with ⟨h1, h2⟩ | ⟨h1, h2⟩ | ⟨v, h1, h3, m2, h2⟩ | ⟨v, items, h1, h3, _, h2⟩
    · rcases hmal with hm | ⟨v, hm, _⟩ <;> rw [h1] at hm <;> exact absurd hm (by simp)
    · exact ⟨_, h2⟩
    · exact ⟨m2, h2⟩
    · rcases hmal with hm | ⟨v2, hm, hsh⟩
      · rw [h1] at hm; exact absurd hm (by simp)
      · rw [h1] at hm
        injection hm with hm2
        injection hm2 with hm3
        rw [← hm3] at hsh
        rw [h3] at hsh
        exact absurd hsh (by simp)
  · intro v items hfs hitems
    rcases hcases with ⟨h1, _⟩ | ⟨h1, _⟩ | ⟨v2, h1, h3, _⟩ | ⟨v2, items2, h1, _, h4, h2⟩
    · rw [hfs] at h1; exact absurd h1 (by simp)
    · rw [hfs] at h1
      injection h1 with h12
      exact absurd h12 (by simp)
    · rw [hfs] at h1
      injection h1 with h12
      injection h12 with h13
      rw [← h13] at h3
      have := (har_shape_ok_entries v).mpr ⟨items, hitems⟩
      rw [this] at h3
      exact absurd h3 (by simp)
    · rw [hfs] at h1
      injection h1 with h12
      injection h12 with h13
      rw [← h13] at h4
      rw [hitems] at h4
      injection h4 with h42
      rw [h2, h42]

/-- C8, witness: a shape-valid one-entry document parses via the entry loop,
applying the taxonomy's last conjunct at a concrete file system. -/
theorem parse_har_file_error_taxonomy_witness :
    parse_har_file "a.har" (fun _ => some (some doc_one_entry)) (fun _ => Option.none) 0 =
      parse_entries_loop (fun _ => Option.none) 0 [JVal.obj []] :=
  (parse_har_file_error_taxonomy "a.har" (fun _ => some (some doc_one_entry))
    (fun _ => Option.none) 0).2.2.2 doc_one_entry [JVal.obj []] rfl rfl

/-- C6: a document that passes document-level validation but holds a
non-object entry (here the number `42`) aborts the whole parse with an
uncaught `TypeError` — the entry loop catches only `KeyError` and
`ValueError`, so the broken entry is not skipped as the spec requires. -/
theorem non_dict_entry_aborts_parse :
    validate_har (JVal.obj [("log", JVal.obj [("entries", JVal.arr [JVal.num 42])])]) =
      Except.ok () ∧
    parse_har_file "capture.har"
      (fun _ => some (some (JVal.obj [("log", JVal.obj [("entries", JVal.arr [JVal.num 42])])])))
      (fun _ => Option.none) 0 =
      Except.error (HarError.uncaught PyErr.typeError) :=
  ⟨rfl, rfl⟩

/-! ### Theorems: flow grouping -/

/-- The grouping loop is the fold of `group_insert` over the keyed
exchanges. -/
theorem build_groups_eq (patterns : List String) (uuids : Nat → String) :
    ∀ (l : List HttpExchange) (drawn : Nat) (gs : List (String × List HttpExchange)),
      build_groups patterns uuids l drawn gs =
        insert_all gs (assign_keys patterns uuids l drawn) := by
  intro l
  induction l with
  | nil => intro drawn gs; rfl
  | cons e rest ih =>
    intro drawn gs
    simp only [build_groups, assign_keys, insert_all, List.foldl_cons]
    exact ih _ _

/-- Keyed exchanges project back to the input list. -/
theorem assign_keys_map_snd (patterns : List String) (uuids : Nat → String) :
    ∀ (l : List HttpExchange) (drawn : Nat),
      (assign_keys patterns uuids l drawn).map Prod.snd = l := by
  intro l
  induction l with
  | nil => intro drawn; rfl
  | cons e rest ih => intro drawn; simp [assign_keys, ih]

/-- String inequality gives a false `==`. -/
theorem str_beq_false {a b : String} (h : a ≠ b) : (a == b) = false :=
  beq_eq_false_iff_ne.mpr h

/-- Lookup after one `group_insert`. -/
theorem lookup_group_insert (k : String) (e : HttpExchange) :
    ∀ (gs : List (String × List HttpExchange)) (k' : String),
      lookup_group (group_insert gs k e) k' =
        if k' = k then some (((lookup_group gs k).getD []) ++ [e])
        else lookup_group gs k' := by
  intro gs
  induction gs with
  | nil =>
    intro k'
    by_cases h : k' = k
    · subst h
      simp [group_insert, lookup_group]
    · simp [group_insert, lookup_group, h, str_beq_false (Ne.symm h)]
  | cons g rest ih =>
    intro k'
    obtain ⟨k0, ms0⟩ := g
    by_cases h0 : k0 = k
    · subst h0
      by_cases h1 : k' = k0
      · subst h1
        simp [group_insert, lookup_group]
      · simp [group_insert, lookup_group, h1, str_beq_false (Ne.symm h1)]
    · by_cases h1 : k' = k
      · subst h1
        have hnk : k0 ≠ k' := h0
        simp [group_insert, lookup_group, str_beq_false h0, str_beq_false hnk, ih k']
      · by_cases h2 : k0 = k'
        · subst h2
          simp [group_insert, lookup_group, str_beq_false h0, h1]
        · simp [group_insert, lookup_group, str_beq_false h0, str_beq_false h2, h1,
            ih k']

/-- Keys after insertion come from the old keys or the inserted key. -/
theorem mem_keys_group_insert (k : String) (e : HttpExchange) :
    ∀ (gs : List (String × List HttpExchange)) (x : String),
      x ∈ (group_insert gs k e).map Prod.fst → x ∈ gs.map Prod.fst ∨ x = k := by
  intro gs
  induction gs with
  | nil =>
    intro x hx
    simp [group_insert] at hx
    exact Or.inr hx
  | cons g rest ih =>
    intro x hx
    obtain ⟨k0, ms0⟩ := g
    by_cases h0 : k0 = k
    · subst h0
      exact Or.inl (by simpa [group_insert] using hx)
    · rw [show group_insert ((k0, ms0) :: rest) k e =
          (k0, ms0) :: group_insert rest k e by
        simp [group_insert, str_beq_false h0]] at hx
      rw [List.map_cons, List.mem_cons] at hx
      rcases hx with rfl | hx2
      · exact Or.inl (by simp)
      · rcases ih x hx2 with h | h
        · exact Or.inl (by simp [h])
        · exact Or.inr h

/-- `group_insert` preserves distinctness of the keys. -/
theorem nodup_keys_group_insert (k : String) (e : HttpExchange) :
    ∀ gs : List (String × List HttpExchange),
      (gs.map Prod.fst).Nodup → ((group_insert gs k e).map Prod.fst).Nodup := by
  intro gs
  induction gs with
  | nil => intro h; simp [group_insert]
  | cons g rest ih =>
    intro h
    obtain ⟨k0, ms0⟩ := g
    rw [List.map_cons, List.nodup_cons] at h
    obtain ⟨hk0, hrest⟩ := h
    by_cases h0 : k0 = k
    · subst h0
      have : group_insert ((k0, ms0) :: rest) k0 e = (k0, ms0 ++ [e]) :: rest := by
        simp [group_insert]
      rw [this, List.map_cons, List.nodup_cons]
      exact ⟨hk0, hrest⟩
    · rw [show group_insert ((k0, ms0) :: rest) k e =
          (k0, ms0) :: group_insert rest k e by
        simp [group_insert, str_beq_false h0]]
      rw [List.map_cons, List.nodup_cons]
      refine ⟨?_, ih hrest⟩
      intro hmem
      rcases mem_keys_group_insert k e rest k0 hmem with h | h
      · exact hk0 h
      · exact h0 h

/-- With distinct keys, membership determines the lookup. -/
theorem lookup_group_of_mem :
    ∀ (gs : List (String × List HttpExchange)), (gs.map Prod.fst).Nodup →
      ∀ k ms, (k, ms) ∈ gs → lookup_group gs k = some ms := by
  intro gs
  induction gs with
  | nil => intro _ k ms h; simp at h
  | cons g rest ih =>
    intro hnd k ms hmem
    obtain ⟨k0, ms0⟩ := g
    rw [List.map_cons, List.nodup_cons] at hnd
    obtain ⟨hk0, hrest⟩ := hnd
    rcases List.mem_cons.mp hmem with heq | htail
    · have h1 : k = k0 := congrArg Prod.fst heq
      have h2 : ms = ms0 := congrArg Prod.snd heq
      subst h1
      subst h2
      simp [lookup_group]
    · have hk : k ≠ k0 := by
        intro h
        subst h
        exact hk0 (by simpa using List.mem_map_of_mem Prod.fst htail)
      simp [lookup_group, str_beq_false (Ne.symm hk), ih hrest k ms htail]

/-- The fold keeps the group keys distinct. -/
theorem nodup_keys_insert_all :
    ∀ (t : List (String × HttpExchange)) (gs : List (String × List HttpExchange)),
      (gs.map Prod.fst).Nodup → ((insert_all gs t).map Prod.fst).Nodup := by
  intro t
  induction t with
  | nil => intro gs h; simpa [insert_all] using h
  | cons ke t ih =>
    intro gs h
    obtain ⟨k0, e0⟩ := ke
    have hstep : insert_all gs ((k0, e0) :: t) = insert_all (group_insert gs k0 e0) t := rfl
    rw [hstep]
    exact ih _ (nodup_keys_group_insert k0 e0 gs h)

/-- Lookup over a whole fold of keyed exchanges. -/
theorem lookup_insert_all :
    ∀ (t : List (String × HttpExchange)) (gs : List (String × List HttpExchange)) (k : String),
      lookup_group (insert_all gs t) k =
        match lookup_group gs k with
        | some ms => some (ms ++ key_members t k)
        | Option.none =>
          if key_members t k = [] then Option.none else some (key_members t k) := by
  intro t
  induction t with
  | nil =>
    intro gs k
    cases h : lookup_group gs k <;> simp [insert_all, key_members, h]
  | cons ke t ih =>
    intro gs k
    obtain ⟨k0, e0⟩ := ke
    have hstep : insert_all gs ((k0, e0) :: t) = insert_all (group_insert gs k0 e0) t := rfl
    rw [hstep, ih]
    by_cases hk : k = k0
    · subst hk
      rw [lookup_group_insert k e0 gs k, if_pos rfl]
      have hkm : key_members ((k, e0) :: t) k = e0 :: key_members t k := by
        simp [key_members]
      rw [hkm]
      cases h : lookup_group gs k <;> simp
    · have hkm : key_members ((k0, e0) :: t) k = key_members t k := by
        have : (k0 == k) = false := by
          simp only [beq_eq_false_iff_ne]
          exact fun h2 => absurd h2.symm hk
        simp [key_members, this]
      rw [lookup_group_insert k0 e0 gs k, if_neg hk, hkm]

/-- Every group built by the fold holds exactly, and in input order, the
exchanges keyed with its session key; no group is empty. -/
theorem groups_char (t : List (String × HttpExchange)) :
    ∀ g ∈ insert_all [] t, g.snd = key_members t g.fst ∧ g.snd ≠ [] := by
  intro g hg
  have hnd : ((insert_all [] t).map Prod.fst).Nodup :=
    nodup_keys_insert_all t [] (by simp)
  obtain ⟨k, ms⟩ := g
  have hl : lookup_group (insert_all [] t) k = some ms :=
    lookup_group_of_mem _ hnd k ms hg
  have h2 := lookup_insert_all t [] k
  rw [hl] at h2
  simp only [lookup_group] at h2
  by_cases hk : key_members t k = []
  · rw [if_pos hk] at h2
    exact absurd h2 (by simp)
  · rw [if_neg hk] at h2
    have hms : ms = key_members t k := Option.some.inj h2
    constructor
    · exact hms
    · rw [hms]; exact hk

/-- `fallback_count` over a cons. -/
theorem fallback_count_cons (patterns : List String) (e : HttpExchange) (l : List HttpExchange) :
    fallback_count patterns (e :: l) =
      if (session_cookie_value e patterns).isSome then fallback_count patterns l
      else fallback_count patterns l + 1 := by
  cases h : session_cookie_value e patterns <;>
    simp [fallback_count, List.filter_cons, h]

/-- Membership in a key class of the keyed exchanges. -/
theorem mem_key_members (t : List (String × HttpExchange)) (k : String) (e : HttpExchange) :
    e ∈ key_members t k ↔ (k, e) ∈ t := by
  simp only [key_members, List.mem_map, List.mem_filter]
  constructor
  · rintro ⟨⟨k2, e2⟩, ⟨hmem, hbeq⟩, heq⟩
    have hk : k2 = k := by simpa using hbeq
    subst hk
    cases heq
    exact hmem
  · intro h
    exact ⟨(k, e), ⟨h, by simp⟩, rfl⟩

/-- Each keyed pair carries either its exchange's first matching cookie
value or a fallback key drawn in the loop's range. -/
theorem assign_keys_mem (patterns : List String) (uuids : Nat → String) :
    ∀ (l : List HttpExchange) (drawn : Nat) (k : String) (e : HttpExchange),
      (k, e) ∈ assign_keys patterns uuids l drawn →
      e ∈ l ∧ (session_cookie_value e patterns = some k ∨
        (session_cookie_value e patterns = Option.none ∧
          ∃ i, drawn ≤ i ∧ i < drawn + fallback_count patterns l ∧
            k = fallback_key uuids i)) := by
  intro l
  induction l with
  | nil => intro drawn k e h; simp [assign_keys] at h
  | cons e0 rest ih =>
    intro drawn k e h
    rw [assign_keys] at h
    rcases List.mem_cons.mp h with h0 | h0
    · have hk : k = identify_session e0 patterns (uuids drawn) := congrArg Prod.fst h0
      have he : e = e0 := congrArg Prod.snd h0
      subst he
      refine ⟨List.mem_cons_self e rest, ?_⟩
      cases hscv : session_cookie_value e patterns with
      | some v =>
        left
        rw [hk]
        simp [identify_session, hscv]
      | none =>
        right
        refine ⟨rfl, drawn, Nat.le_refl drawn, ?_, ?_⟩
        · rw [fallback_count_cons]
          simp only [hscv, Option.isSome_none, Bool.false_eq_true, if_false]
          omega
        · rw [hk]
          simp [identify_session, hscv, fallback_key]
    · cases hscv : session_cookie_value e0 patterns with
      | some v =>
        have h1 := ih drawn k e (by simpa [hscv] using h0)
        refine ⟨List.mem_cons_of_mem _ h1.1, ?_⟩
        rcases h1.2 with hcase | ⟨hnone, i, hi1, hi2, hi3⟩
        · exact Or.inl hcase
        · refine Or.inr ⟨hnone, i, hi1, ?_, hi3⟩
          rw [fallback_count_cons]
          simp only [hscv, Option.isSome_some, if_true]
          omega
      | none =>
        have h1 := ih (drawn + 1) k e (by simpa [hscv] using h0)
        refine ⟨List.mem_cons_of_mem _ h1.1, ?_⟩
        rcases h1.2 with hcase | ⟨hnone, i, hi1, hi2, hi3⟩
        · exact Or.inl hcase
        · refine Or.inr ⟨hnone, i, by omega, ?_, hi3⟩
          rw [fallback_count_cons]
          simp only [hscv, Option.isSome_none, Bool.false_eq_true, if_false]
          omega

set_option maxHeartbeats 1000000 in
/-- When the drawn fallback keys are pairwise distinct and no cookie value
collides with them, the key of a cookie-less exchange keys exactly that one
pair among all keyed exchanges. -/
theorem assign_keys_fallback_filter (patterns : List String) (uuids : Nat → String) :
    ∀ (l : List HttpExchange) (drawn : Nat),
      (∀ i, drawn ≤ i → i < drawn + fallback_count patterns l →
        ∀ j, drawn ≤ j → j < drawn + fallback_count patterns l → i ≠ j →
          fallback_key uuids i ≠ fallback_key uuids j) →
      (∀ i, drawn ≤ i → i < drawn + fallback_count patterns l →
        ∀ e2 ∈ l, session_cookie_value e2 patterns ≠ some (fallback_key uuids i)) →
      ∀ k e, session_cookie_value e patterns = Option.none →
        (k, e) ∈ assign_keys patterns uuids l drawn →
        (assign_keys patterns uuids l drawn).filter (fun ke => ke.fst == k) = [(k, e)] := by
  intro l
  induction l with
  | nil => intro drawn _ _ k e _ hmem; simp [assign_keys] at hmem
  | cons e0 rest ih =>
    intro drawn hfr hnc k e hescv hmem
    rw [assign_keys] at hmem ⊢
    cases hscv0 : session_cookie_value e0 patterns with
    | some v =>
      have hkey : identify_session e0 patterns (uuids drawn) = v := by
        simp [identify_session, hscv0]
      have hfc : fallback_count patterns (e0 :: rest) = fallback_count patterns rest := by
        rw [fallback_count_cons]
        simp [hscv0]
      simp only [hkey, hscv0, Option.isSome_some, if_true] at hmem ⊢
      rcases List.mem_cons.mp hmem with h0 | h0
      · have he : e = e0 := congrArg Prod.snd h0
        rw [he, hscv0] at hescv
        exact absurd hescv (by simp)
      · obtain ⟨hemem, hclass⟩ := assign_keys_mem patterns uuids rest drawn k e h0
        rcases hclass with hc | ⟨_, i, hi1, hi2, hi3⟩
        · rw [hescv] at hc
          exact absurd hc (by simp)
        · have hvk : v ≠ k := by
            intro hvk2
            have := hnc i hi1 (by rw [hfc]; omega) e0 (List.mem_cons_self e0 rest)
            rw [hi3] at hvk2
            rw [hvk2] at hscv0
            exact this hscv0
          rw [List.filter_cons]
          simp only [str_beq_false hvk, Bool.false_eq_true, if_false]
          refine ih drawn ?_ ?_ k e hescv h0
          · intro i2 h1 h2 j h3 h4 h5
            exact hfr i2 h1 (by rw [hfc]; omega) j h3 (by rw [hfc]; omega) h5
          · intro i2 h1 h2 e2 he2
            exact hnc i2 h1 (by rw [hfc]; omega) e2 (List.mem_cons_of_mem _ he2)
    | none =>
      have hkey : identify_session e0 patterns (uuids drawn) = fallback_key uuids drawn := by
        simp [identify_session, hscv0, fallback_key]
      have hfc : fallback_count patterns (e0 :: rest) = fallback_count patterns rest + 1 := by
        rw [fallback_count_cons]
        simp [hscv0]
      simp only [hkey, hscv0, Option.isSome_none, Bool.false_eq_true, if_false] at hmem ⊢
      have hdrawn_lt : drawn < drawn + fallback_count patterns (e0 :: rest) := by
        rw [hfc]; omega
      rcases List.mem_cons.mp hmem with h0 | h0
      · have hk : k = fallback_key uuids drawn := congrArg Prod.fst h0
        have he : e = e0 := congrArg Prod.snd h0
        rw [hk, he]
        rw [List.filter_cons]
        simp only [beq_self_eq_true, if_true]
        have hnil : (assign_keys patterns uuids rest (drawn + 1)).filter
            (fun ke => ke.fst == fallback_key uuids drawn) = [] := by
          rw [List.filter_eq_nil_iff]
          rintro ⟨k2, e2⟩ hke hbeq
          have hk2 : k2 = fallback_key uuids drawn := by simpa using hbeq
          obtain ⟨he2mem, hclass⟩ := assign_keys_mem patterns uuids rest (drawn + 1) k2 e2 hke
          rcases hclass with hc | ⟨_, i, hi1, hi2, hi3⟩
          · have := hnc drawn (Nat.le_refl drawn) hdrawn_lt e2 (List.mem_cons_of_mem _ he2mem)
            rw [hk2] at hc
            exact this hc
          · have hne : i ≠ drawn := by omega
            have := hfr i (by omega) (by rw [hfc]; omega) drawn (Nat.le_refl drawn)
              hdrawn_lt hne
            rw [hi3] at hk2
            exact this hk2
        rw [hnil]
      · obtain ⟨hemem, hclass⟩ := assign_keys_mem patterns uuids rest (drawn + 1) k e h0
        have hkne : identify_session e0 patterns (uuids drawn) ≠ k := by
          rw [hkey]
          rcases hclass with hc | ⟨_, i, hi1, hi2, hi3⟩
          · rw [hescv] at hc
            exact absurd hc (by simp)
          · have hne : drawn ≠ i := by omega
            intro heq
            rw [hi3] at heq
            exact hfr drawn (Nat.le_refl drawn) hdrawn_lt i (by omega) (by rw [hfc]; omega)
              hne heq
        rw [hkey] at hkne
        rw [List.filter_cons]
        simp only [str_beq_false hkne, Bool.false_eq_true, if_false]
        refine ih (drawn + 1) ?_ ?_ k e hescv h0
        · intro i2 h1 h2 j h3 h4 h5
          exact hfr i2 (by omega) (by rw [hfc]; omega) j (by omega) (by rw [hfc]; omega) h5
        · intro i2 h1 h2 e2 he2
          exact hnc i2 (by omega) (by rw [hfc]; omega) e2 (List.mem_cons_of_mem _ he2)

/-- Every flow produced by `reconstruct_flows` comes from one group of the
keyed grouping fold. -/
theorem reconstruct_flows_mem (exchanges : List HttpExchange) (cp : Option (List String))
    (uuids : Nat → String) (f : SessionFlow)
    (hf : f ∈ reconstruct_flows exchanges cp uuids) :
    ∃ g ∈ insert_all []
        (assign_keys (orDefault cp DEFAULT_SESSION_COOKIE_PATTERNS) uuids exchanges 0),
      f = { session_id := g.fst, exchanges := sort_by_timestamp g.snd,
            auth_mechanism := AuthMechanism.NONE } := by
  simp only [reconstruct_flows] at hf
  cases he : exchanges.isEmpty
  · rw [he] at hf
    simp only [Bool.false_eq_true, if_false] at hf
    rw [build_groups_eq] at hf
    have hf2 := (mem_stable_sort first_timestamp _ f).mp hf
    rcases List.mem_map.mp hf2 with ⟨g, hg, hfg⟩
    exact ⟨g, hg, hfg.symm⟩
  · rw [he] at hf
    simp at hf

/-- C7: flows hold their exchanges sorted non-decreasing by timestamp, ties
keep the input's relative order (each equal-timestamp subsequence of a flow
is an in-order sublist of the input), the flows themselves are sorted
non-decreasing by first-exchange timestamp, no flow is empty, and an empty
input yields no flows. -/
theorem reconstruct_flows_ordering (exchanges : List HttpExchange)
    (cp : Option (List String)) (uuids : Nat → String) :
    (∀ f ∈ reconstruct_flows exchanges cp uuids,
      f.exchanges.Pairwise fun a b => a.timestamp ≤ b.timestamp) ∧
    (∀ f ∈ reconstruct_flows exchanges cp uuids, ∀ t : Nat,
      (f.exchanges.filter fun e => e.timestamp == t).Sublist exchanges) ∧
    ((reconstruct_flows exchanges cp uuids).Pairwise fun a b =>
      first_timestamp a ≤ first_timestamp b) ∧
    (∀ f ∈ reconstruct_flows exchanges cp uuids, f.exchanges ≠ []) ∧
    (reconstruct_flows ([] : List HttpExchange) cp uuids = []) := by
  refine ⟨?_, ?_, ?_, ?_, rfl⟩
  · intro f hf
    obtain ⟨g, hg, hfg⟩ := reconstruct_flows_mem exchanges cp uuids f hf
    rw [hfg]
    exact stable_sort_sorted (fun e => e.timestamp) g.snd
  · intro f hf t
    obtain ⟨g, hg, hfg⟩ := reconstruct_flows_mem exchanges cp uuids f hf
    rw [hfg]
    have hfil : (sort_by_timestamp g.snd).filter (fun e => e.timestamp == t) =
        g.snd.filter (fun e => e.timestamp == t) :=
      stable_sort_filter (fun e => e.timestamp) g.snd t
    have hchar := groups_char _ g hg
    have h1 : (g.snd.filter fun e => e.timestamp == t).Sublist g.snd :=
      List.filter_sublist g.snd
    have h2 : (key_members
        (assign_keys (orDefault cp DEFAULT_SESSION_COOKIE_PATTERNS) uuids exchanges 0)
        g.fst).Sublist exchanges := by
      have h3 := List.Sublist.map Prod.snd (List.filter_sublist
        (p := fun ke => ke.fst == g.fst)
        (assign_keys (orDefault cp DEFAULT_SESSION_COOKIE_PATTERNS) uuids exchanges 0))
      rw [assign_keys_map_snd] at h3
      exact h3
    rw [← hchar.1] at h2
    exact hfil ▸ (h1.trans h2)
  · simp only [reconstruct_flows]
    cases he : exchanges.isEmpty
    · simp only [Bool.false_eq_true, if_false]
      exact stable_sort_sorted first_timestamp _
    · simp
  · intro f hf
    obtain ⟨g, hg, hfg⟩ := reconstruct_flows_mem exchanges cp uuids f hf
    rw [hfg]
    exact stable_sort_ne_nil (fun e => e.timestamp) g.snd (groups_char _ g hg).2

/-- C7, witness: the two `s1` exchanges arrive out of order and come back as
one flow sorted by timestamp, with the equal-timestamp subsequence an
in-order sublist of the input, and non-empty. -/
theorem reconstruct_flows_ordering_witness :
    flow_s1 ∈ reconstruct_flows [ex_s1_late, ex_s1_early] Option.none uuids_fresh ∧
    (flow_s1.exchanges.Pairwise fun a b => a.timestamp ≤ b.timestamp) ∧
    ((flow_s1.exchanges.filter fun e => e.timestamp == 4).Sublist
      [ex_s1_late, ex_s1_early]) ∧
    flow_s1.exchanges ≠ [] := by
  have h := reconstruct_flows_ordering [ex_s1_late, ex_s1_early] Option.none uuids_fresh
  have hmem : flow_s1 ∈ reconstruct_flows [ex_s1_late, ex_s1_early] Option.none uuids_fresh := by
    decide
  exact ⟨hmem, h.1 flow_s1 hmem, h.2.1 flow_s1 hmem 4, h.2.2.2.1 flow_s1 hmem⟩

/-- C3, counterexample: with a uuid stream whose draws repeat (and a cookie
value shaped like a fallback key), three exchanges — two of them without any
matching cookie — collapse into one single flow of three exchanges, so a
cookie-less exchange does not form its own single-exchange flow. -/
theorem fallback_key_collision_collapses_flows :
    (reconstruct_flows [ex_cookie_clash, ex_no_cookie_1, ex_no_cookie_2]
        Option.none uuids_const).map (fun f => (f.session_id, f.exchanges.length)) =
      [("no-session-aaaaaaaa", 3)] ∧
    session_cookie_value ex_no_cookie_1
      (orDefault Option.none DEFAULT_SESSION_COOKIE_PATTERNS) = Option.none := by
  constructor <;> decide

/-- C3, amended: provided the uuid draws consumed by the call are pairwise
distinct in their first 8 characters and no exchange's matching cookie value
equals any synthesized fallback key, every exchange without a matching
session cookie lies only in a flow whose exchange list is exactly that one
exchange. -/
theorem fresh_fallback_keys_give_singleton_flows (exchanges : List HttpExchange)
    (cp : Option (List String)) (uuids : Nat → String)
    (hfr : ∀ i, i < fallback_count (orDefault cp DEFAULT_SESSION_COOKIE_PATTERNS) exchanges →
      ∀ j, j < fallback_count (orDefault cp DEFAULT_SESSION_COOKIE_PATTERNS) exchanges →
      i ≠ j → fallback_key uuids i ≠ fallback_key uuids j)
    (hnc : ∀ i, i < fallback_count (orDefault cp DEFAULT_SESSION_COOKIE_PATTERNS) exchanges →
      ∀ e2 ∈ exchanges,
        session_cookie_value e2 (orDefault cp DEFAULT_SESSION_COOKIE_PATTERNS) ≠
          some (fallback_key uuids i)) :
    ∀ e ∈ exchanges,
      session_cookie_value e (orDefault cp DEFAULT_SESSION_COOKIE_PATTERNS) = Option.none →
      ∀ f ∈ reconstruct_flows exchanges cp uuids, e ∈ f.exchanges → f.exchanges = [e] := by
  intro e hemem hescv f hf hef
  obtain ⟨g, hg, hfg⟩ := reconstruct_flows_mem exchanges cp uuids f hf
  rw [hfg] at hef ⊢
  have hef1 : e ∈ stable_sort (fun e => e.timestamp) g.snd := hef
  have hef2 : e ∈ g.snd :=
    (mem_stable_sort (fun e => e.timestamp) g.snd e).mp hef1
  have hchar := groups_char _ g hg
  rw [hchar.1] at hef2
  have hpair := (mem_key_members _ g.fst e).mp hef2
  have hfil := assign_keys_fallback_filter
    (orDefault cp DEFAULT_SESSION_COOKIE_PATTERNS) uuids exchanges 0
    (fun i h1 h2 j h3 h4 h5 => hfr i (by omega) j (by omega) h5)
    (fun i h1 h2 e2 he2 => hnc i (by omega) e2 he2)
    g.fst e hescv hpair
  have hkm : key_members
      (assign_keys (orDefault cp DEFAULT_SESSION_COOKIE_PATTERNS) uuids exchanges 0)
      g.fst = [e] := by
    rw [key_members, hfil]
    rfl
  rw [hchar.1, hkm]
  rfl

/-- C3, witness: with pairwise distinct fresh draws, each of two cookie-less
exchanges stays a singleton flow. -/
theorem fresh_fallback_keys_give_singleton_flows_witness :
    flow_nc1 ∈ reconstruct_flows [ex_no_cookie_1, ex_no_cookie_2] Option.none uuids_fresh ∧
    flow_nc1.exchanges = [ex_no_cookie_1] :=
  ⟨by decide,
   fresh_fallback_keys_give_singleton_flows [ex_no_cookie_1, ex_no_cookie_2]
     Option.none uuids_fresh (by decide) (by decide)
     ex_no_cookie_1 (by decide) (by decide)
     flow_nc1 (by decide) (by decide)⟩

end CsrfShield
